import Mathlib

/-!
Shallow embedding of the `sync-to-head` core of the eth-validator-watcher
repository, together with proofs of the spec's claims about it.

The embedded code:
* `eth-parser/src/traits.rs`: `SyncError`, and the default method
  `DbSyncer::sync_to_head` — the `bump` closure (one pass) and the infinite
  scheduler loop around `from.take()`.
* `kiln-postgres/src/models/slots/insertable.rs`: `NewSlot` and
  `NewSlot::upsert` (diesel `insert_into … on_conflict_do_nothing`).

Rust `u64` values are modelled as `Nat`; where the source performs `u64`
arithmetic that can overflow (`slot + 1`, `chain_height + 1`) the embedding
takes the result modulo `2 ^ 64`, matching release-mode wrapping semantics.
Effectful trait methods (`get_db_height`, `get_node_height`,
`create_new_entry`) are modelled as oracle values/functions supplied by the
environment, and the store written by `create_new_entry` is threaded
explicitly.
-/

namespace EthWatcher

/-- Modulus of Rust `u64` arithmetic. -/
def U64MOD : Nat := 2 ^ 64

/-- Model of `crate::Error` as used by `sync_to_head`.  The first two
constructors embed `SyncError` from `eth-parser/src/traits.rs`; `transport`
and `storage` stand for the remaining opaque error variants (node transport
failures and database failures). -/
inductive Error where
  | nothingAtHeight (h : Nat)
  | pendingBlock (h : Nat)
  | transport
  | storage
deriving DecidableEq

/-- `NewSlot` from `kiln-postgres/src/models/slots/insertable.rs`.  The
source stores `height` as `i64` and converts back with `as u64`; the
round-trip is the identity on `u64` values, so the model keeps a `Nat`. -/
structure NewSlot where
  spec : String
  height : Nat
  validatorsCount : Option Nat
deriving DecidableEq

/-- The `slots` table, as the sequence of rows it holds. -/
abbrev Store := List NewSlot

/-- The row the table holds at a given height (the table has a uniqueness
constraint on `height`; `find?` returns the first matching row). -/
def lookupHeight (st : Store) (h : Nat) : Option NewSlot :=
  st.find? (fun s => s.height == h)

/-- `NewSlot::upsert`: `insert_into(slots::table).values(self)
.on_conflict_do_nothing().execute(conn)` — inserts the row unless a row
with a conflicting `height` already exists, and returns the new table
together with the number of affected rows. -/
def upsert (st : Store) (slot : NewSlot) : Store × Nat :=
  if (lookupHeight st slot.height).isSome then (st, 0) else (st ++ [slot], 1)

/-- The effect of one `create_new_entry` call: given the current store and
a height, return the updated store and the call's result. -/
abbrev CreateFn := Store → Nat → Store × Except Error Unit

/-- The heights visited by the Rust loop
`for height in from_height..chain_height + 1` — a half-open `u64` range
whose upper bound is computed with wrapping `u64` addition. -/
def passHeights (fromHeight chainHeight : Nat) : List Nat :=
  List.range' fromHeight ((chainHeight + 1) % U64MOD - fromHeight)

/-- Run `self.create_new_entry(height).await?` over a list of heights in
order, aborting at the first error (the `?` operator).  Returns the final
store, the trace of heights at which `create_new_entry` was called, and the
overall result. -/
def runCreates (create : CreateFn) : Store → List Nat → Store × List Nat × Except Error Unit
  | st, [] => (st, [], .ok ())
  | st, h :: rest =>
    match create st h with
    | (st', .ok _) =>
      let out := runCreates create st' rest
      (out.1, h :: out.2.1, out.2.2)
    | (st', .error e) => (st', [h], .error e)

/-- Start-height resolution from `sync_to_head` line 48–49:
`from.unwrap_or_else(|| self.get_db_height().map_or(0, |slot| slot + 1))`.
`get_db_height` returns `Result<u64, Error>`: an `Ok(slot)` resolves to
`slot + 1` (wrapping `u64` addition) and any `Err` resolves to `0`. -/
def resolveFrom (fr : Option Nat) (dbHeight : Except Error Nat) : Nat :=
  match fr with
  | some f => f
  | none =>
    match dbHeight with
    | .ok slot => (slot + 1) % U64MOD
    | .error _ => 0

/-- The environment one `bump` pass runs against: the results of
`get_db_height` and `get_node_height`, and the behaviour of
`create_new_entry`. -/
structure PassEnv where
  dbHeight : Except Error Nat
  nodeHeight : Except Error Nat
  create : CreateFn

/-- The observable outcome of one `bump` pass: the store afterwards, the
trace of `create_new_entry` calls, and `bump`'s returned
`Result<u64, Error>`. -/
structure PassResult where
  store : Store
  calls : List Nat
  result : Except Error Nat

/-- The `bump` closure of `sync_to_head` (traits.rs lines 47–68): resolve
the start height, query the node head (propagating its error), return
`Ok(chain_height)` immediately when the start equals the head, and
otherwise run `create_new_entry` over `from_height..chain_height + 1`,
aborting on the first error. -/
def bump (env : PassEnv) (st : Store) (fr : Option Nat) : PassResult :=
  let fromHeight := resolveFrom fr env.dbHeight
  match env.nodeHeight with
  | .error e => ⟨st, [], .error e⟩
  | .ok chainHeight =>
    if fromHeight = chainHeight then ⟨st, [], .ok chainHeight⟩
    else
      match runCreates env.create st (passHeights fromHeight chainHeight) with
      | (st', calls, .ok _) => ⟨st', calls, .ok chainHeight⟩
      | (st', calls, .error e) => ⟨st', calls, .error e⟩

/-- `Option::take`: returns the held value and leaves `none` behind. -/
def optTake (r : Option Nat) : Option Nat × Option Nat := (r, none)

/-- Value of the mutable `from` variable just before tick `n` of the
scheduler loop (ticks are numbered from 0); each tick consumes it with
`from.take()`. -/
def fromBefore (from0 : Option Nat) : Nat → Option Nat
  | 0 => from0
  | n + 1 => (optTake (fromBefore from0 n)).2

/-- Store contents just before tick `n`, threading each pass's writes into
the next tick.  `envs n` is the environment tick `n` runs against. -/
def storeBefore (envs : Nat → PassEnv) (st0 : Store) (from0 : Option Nat) : Nat → Store
  | 0 => st0
  | n + 1 =>
    (bump (envs n) (storeBefore envs st0 from0 n) (optTake (fromBefore from0 n)).1).store

/-- Outcome of tick `n` of the scheduler loop `loop { sync_interval.tick();
match bump(from.take()) { Ok(..) => info, Err(..) => warn } }`.  The loop
body matches on both outcomes and only logs, so every tick `n : Nat` has an
outcome: the loop never exits, whatever earlier passes returned. -/
def tickResult (envs : Nat → PassEnv) (st0 : Store) (from0 : Option Nat) (n : Nat) : PassResult :=
  bump (envs n) (storeBefore envs st0 from0 n) (optTake (fromBefore from0 n)).1

/-- The start height tick `n` resolves. -/
def tickStart (envs : Nat → PassEnv) (from0 : Option Nat) (n : Nat) : Nat :=
  resolveFrom (optTake (fromBefore from0 n)).1 (envs n).dbHeight

/-- Modelled from the spec: the body of `create_new_entry` (its concrete
implementations are not under `src/`; `traits.rs` only declares it and says
it "should fetch data from the node and store them in database").  Per
§4.1/§4.3 of the spec it fetches the entry for `h` from the node — failing
with `NothingAtHeight`, `PendingBlock` or a transport error — and on
success persists it through the idempotent insert; a fetch failure writes
nothing, and a storage failure on the write leaves the store unchanged.
`fetch` is the node's `entryAt` oracle and `writeOk` says whether the
store write at a given height succeeds. -/
def createEntry (fetch : Nat → Except Error NewSlot) (writeOk : Nat → Bool) : CreateFn :=
  fun st h =>
    match fetch h with
    | .error e => (st, .error e)
    | .ok slot => if writeOk h then ((upsert st slot).1, .ok ()) else (st, .error .storage)

/-- Decidable per-height success of the spec-modelled `create_new_entry`:
the fetch succeeds, returns the entry for that very height, and the write
succeeds. -/
def fetchGood (fetch : Nat → Except Error NewSlot) (writeOk : Nat → Bool) (k : Nat) : Bool :=
  match fetch k with
  | .ok slot => slot.height == k && writeOk k
  | .error _ => false

/-- A store has at most one row per height when no two of its rows share a
height. -/
def uniqueHeights (st : Store) : Prop :=
  st.Pairwise (fun a b => a.height ≠ b.height)

/-- An environment whose node head sits at `u64::MAX`, whose
`get_db_height` fails, and whose `create_new_entry` always succeeds
without touching the store; used as a concrete input. -/
def maxHeadEnv : PassEnv :=
  ⟨Except.error Error.storage, Except.ok (U64MOD - 1), fun st _ => (st, Except.ok ())⟩

/-- A node whose block at height 2 is still pending; every other height
fetches fine. -/
def pendingFetch : Nat → Except Error NewSlot :=
  fun k => if k = 2 then .error (.pendingBlock 2) else .ok ⟨"mainnet", k, none⟩

/-- Concrete environment: empty-store cursor, head 3, `create_new_entry`
built from `pendingFetch` with all writes succeeding. -/
def pendingEnv : PassEnv :=
  ⟨Except.error Error.storage, Except.ok 3, createEntry pendingFetch (fun _ => true)⟩

/-- A store already holding an entry at height 1. -/
def genesisStore : Store := [⟨"genesis", 1, some 5⟩]

/-- An environment whose `get_db_height` read fails while the node and
`create_new_entry` behave fine; used as a concrete input. -/
def dbFailEnv : PassEnv :=
  ⟨Except.error Error.storage, Except.ok 0, fun st _ => (st, Except.ok ())⟩

/-- Concrete environment whose store write fails with a storage error at
height 2 only, in the middle of the range `[0, 3]`: every fetch succeeds,
and writes succeed at every other height. -/
def writeFailEnv : PassEnv :=
  ⟨Except.error Error.storage, Except.ok 3,
   createEntry (fun k => Except.ok ⟨"mainnet", k, none⟩) (fun k => !(k == 2))⟩

section Lemmas

theorem runCreates_calls_of_ok (c : CreateFn) :
    ∀ (hs : List Nat) (st : Store), (runCreates c st hs).2.2 = .ok () →
      (runCreates c st hs).2.1 = hs := by
  intro hs
  induction hs with
  | nil => intro st _; rfl
  | cons h rest ih =>
    intro st hok
    rcases hc : c st h with ⟨st', r⟩
    cases r with
    | ok u =>
      simp only [runCreates, hc] at hok ⊢
      exact congrArg _ (ih st' hok)
    | error e => simp [runCreates, hc] at hok

theorem bump_not_caught (env : PassEnv) (st : Store) (fr : Option Nat) (s H : Nat)
    (hs : resolveFrom fr env.dbHeight = s) (hn : env.nodeHeight = .ok H) (hne : s ≠ H) :
    bump env st fr =
      match runCreates env.create st (passHeights s H) with
      | (st', calls, .ok _) => ⟨st', calls, .ok H⟩
      | (st', calls, .error e) => ⟨st', calls, .error e⟩ := by
  simp [bump, hn, hs, hne]

end Lemmas

/-- C2: on the first tick the start height resolves to the explicit
caller-supplied value when present (for any state of the store), to
`m + 1` when `get_db_height` returns `Ok(m)` (provided `m + 1` does not
overflow `u64`), and to `0` when `get_db_height` fails, which is how the
code encodes the empty store. -/
theorem claim2_start_resolution (v : Nat) (db : Except Error Nat) (m : Nat) (e : Error) :
    resolveFrom (some v) db = v ∧
    (m + 1 < U64MOD → resolveFrom none (.ok m) = m + 1) ∧
    resolveFrom none (.error e) = 0 := by
  refine ⟨rfl, fun hm => ?_, rfl⟩
  simp [resolveFrom, Nat.mod_eq_of_lt hm]

/-- Witness for C2, at the spec's own examples: explicit `100` wins over a
stored max of `41`; a stored max of `41` resolves to `42`; a failed
`get_db_height` (empty store) resolves to `0`. -/
theorem claim2_start_resolution_witness :
    resolveFrom (some 100) (Except.ok 41) = 100 ∧
    resolveFrom none (Except.ok 41) = 42 ∧
    resolveFrom none (Except.error Error.storage) = 0 := by
  have h := claim2_start_resolution 100 (Except.ok 41) 41 Error.storage
  exact ⟨h.1, by simpa using h.2.1 (by norm_num [U64MOD]), h.2.2⟩

/-- C7: when the resolved start height equals the node head, `bump`
returns `Ok(chain_height)` before the loop: no `create_new_entry` call is
made, the store is untouched, and the pass is a success reporting `H`. -/
theorem claim7_noop_when_caught_up (env : PassEnv) (st : Store) (fr : Option Nat) (H : Nat)
    (hs : resolveFrom fr env.dbHeight = H) (hn : env.nodeHeight = .ok H) :
    bump env st fr = ⟨st, [], .ok H⟩ := by
  simp [bump, hn, hs]

/-- Witness for C7: store max 41 resolves to 42 = head, and the pass is a
no-op success. -/
theorem claim7_noop_when_caught_up_witness :
    bump ⟨Except.ok 41, Except.ok 42, fun st _ => (st, Except.ok ())⟩ [] none =
      ⟨[], [], Except.ok 42⟩ :=
  claim7_noop_when_caught_up _ [] none 42 (by norm_num [resolveFrom, U64MOD]) rfl

/-- C9: when the resolved start height is strictly greater than the head
(steady state: start = head + 1), the equality check fails but the Rust
range `start..head + 1` is empty, so the pass makes no calls, leaves the
store untouched, and still reports `Ok(head)`. -/
theorem claim9_ahead_of_head_noop (env : PassEnv) (st : Store) (fr : Option Nat) (s H : Nat)
    (hs : resolveFrom fr env.dbHeight = s) (hn : env.nodeHeight = .ok H)
    (hlt : H < s) (hs64 : s < U64MOD) :
    bump env st fr = ⟨st, [], .ok H⟩ := by
  have hne : s ≠ H := by omega
  have h1 : (H + 1) % U64MOD = H + 1 := Nat.mod_eq_of_lt (by omega)
  have hcalls : passHeights s H = [] := by
    unfold passHeights
    rw [h1]
    have h2 : H + 1 - s = 0 := by omega
    simp [h2]
  rw [bump_not_caught env st fr s H hs hn hne, hcalls]
  rfl

/-- Witness for C9: store max 4 resolves start 5 past head 4; the pass is
a no-op success reporting 4. -/
theorem claim9_ahead_of_head_noop_witness :
    bump ⟨Except.ok 4, Except.ok 4, fun st _ => (st, Except.ok ())⟩ [] none =
      ⟨[], [], Except.ok 4⟩ :=
  claim9_ahead_of_head_noop _ [] none 5 4 (by norm_num [resolveFrom, U64MOD]) rfl
    (by norm_num) (by norm_num [U64MOD])

/-- C10: the backfill range is `from_height..chain_height + 1` in wrapping
`u64` arithmetic.  When `chain_height + 1 < 2 ^ 64` the iteration visits
exactly the closed range `[from_height, chain_height]`; at
`chain_height = 2 ^ 64 - 1` the upper bound wraps to `0`, the range is
empty, and the maximum height is never visited. -/
theorem claim10_range_overflow :
    (∀ f c : Nat, c + 1 < U64MOD →
      passHeights f c = List.range' f (c + 1 - f) ∧
      (f ≤ c → ∀ k, k ∈ passHeights f c ↔ f ≤ k ∧ k ≤ c)) ∧
    passHeights 0 (U64MOD - 1) = [] ∧
    ¬ (U64MOD - 1) ∈ passHeights 0 (U64MOD - 1) := by
  have hmax : passHeights 0 (U64MOD - 1) = [] := by
    unfold passHeights
    norm_num [U64MOD]
  refine ⟨fun f c hc => ?_, hmax, by simp [hmax]⟩
  have h1 : (c + 1) % U64MOD = c + 1 := Nat.mod_eq_of_lt hc
  refine ⟨by simp [passHeights, h1], fun hfc k => ?_⟩
  simp only [passHeights, h1, List.mem_range'_1]
  omega

/-- Witness for C10: the pass over heads below the overflow bound visits
the closed range, e.g. `[3, 7]`. -/
theorem claim10_range_overflow_witness :
    passHeights 3 7 = [3, 4, 5, 6, 7] ∧ (7 ∈ passHeights 3 7 ↔ 3 ≤ 7 ∧ 7 ≤ 7) := by
  have h := claim10_range_overflow.1 3 7 (by norm_num [U64MOD])
  exact ⟨h.1, h.2 (by norm_num) 7⟩

/-- Counterexample to C1 as stated: with explicit start `0` and node head
`2 ^ 64 - 1` (so `s ≤ H` and `s ≠ H`), the upper bound `chain_height + 1`
wraps to `0`, the pass succeeds reporting `H`, yet `create_new_entry` is
called for no height at all. -/
theorem claim1_counterexample :
    resolveFrom (some 0) maxHeadEnv.dbHeight = 0 ∧
    maxHeadEnv.nodeHeight = Except.ok (U64MOD - 1) ∧
    0 < U64MOD - 1 ∧
    (bump maxHeadEnv [] (some 0)).result = Except.ok (U64MOD - 1) ∧
    (bump maxHeadEnv [] (some 0)).calls = [] :=
  ⟨rfl, rfl, by norm_num [U64MOD], rfl, rfl⟩

/-- C1 (amended: for heads `H` with `H + 1 < 2 ^ 64`; at `H = 2 ^ 64 - 1`
the range upper bound wraps and a successful pass calls nothing — see the
counterexample): for resolved start `s` and head `H` with `s ≤ H`,
`s ≠ H`, a successful pass calls `create_new_entry` exactly once for every
height in the closed range `[s, H]`, in strictly increasing order with no
gaps, and reports `H` as the new synced head. -/
theorem claim1_range_completeness (env : PassEnv) (st : Store) (fr : Option Nat) (s H : Nat)
    (hs : resolveFrom fr env.dbHeight = s) (hn : env.nodeHeight = .ok H)
    (hle : s ≤ H) (hne : s ≠ H) (hH : H + 1 < U64MOD)
    (hok : ∃ r, (bump env st fr).result = .ok r) :
    (bump env st fr).calls = List.range' s (H + 1 - s) ∧
    (∀ k, k ∈ (bump env st fr).calls ↔ s ≤ k ∧ k ≤ H) ∧
    (bump env st fr).calls.Pairwise (· < ·) ∧
    (bump env st fr).result = .ok H := by
  have hb := bump_not_caught env st fr s H hs hn hne
  have hph : passHeights s H = List.range' s (H + 1 - s) := by
    simp [passHeights, Nat.mod_eq_of_lt hH]
  rcases hr : runCreates env.create st (passHeights s H) with ⟨st', calls, r⟩
  cases r with
  | error e =>
    exfalso
    rcases hok with ⟨v, hv⟩
    rw [hb, hr] at hv
    simp at hv
  | ok u =>
    obtain ⟨⟩ := u
    have hcalls : calls = passHeights s H := by
      have := runCreates_calls_of_ok env.create (passHeights s H) st
      rw [hr] at this
      exact this rfl
    rw [hb, hr]
    subst hcalls
    rw [hph]
    refine ⟨rfl, fun k => ?_, List.pairwise_lt_range' s (H + 1 - s), rfl⟩
    rw [List.mem_range'_1]
    omega

/-- Witness for C1 (amended): start 1, head 3, all creates succeed; the
pass calls heights `[1, 2, 3]` in order and reports head 3. -/
theorem claim1_range_completeness_witness :
    (bump ⟨Except.error Error.storage, Except.ok 3, fun st _ => (st, Except.ok ())⟩
        [] (some 1)).calls = [1, 2, 3] ∧
    (bump ⟨Except.error Error.storage, Except.ok 3, fun st _ => (st, Except.ok ())⟩
        [] (some 1)).result = Except.ok 3 := by
  have h := claim1_range_completeness
    ⟨Except.error Error.storage, Except.ok 3, fun st _ => (st, Except.ok ())⟩
    [] (some 1) 1 3 rfl rfl (by norm_num) (by norm_num) (by norm_num [U64MOD]) ⟨3, rfl⟩
  exact ⟨h.1, h.2.2.2⟩

/-- C3: the caller-supplied start height is a one-time override.  Tick `0`
consumes it via `from.take()`, so every tick `n ≥ 1` — in particular every
tick after the first successful pass — resolves its start from the store's
cursor alone: `cursor + 1` when `get_db_height` returns `Ok(cursor)`
(below the overflow bound), `0` when it fails (empty store), whatever the
original caller-supplied value was. -/
theorem claim3_one_time_override (envs : Nat → PassEnv) (from0 : Option Nat) (n : Nat)
    (hn : 1 ≤ n) :
    tickStart envs from0 n = resolveFrom none (envs n).dbHeight ∧
    (∀ e, (envs n).dbHeight = .error e → tickStart envs from0 n = 0) ∧
    (∀ k, (envs n).dbHeight = .ok k → k + 1 < U64MOD → tickStart envs from0 n = k + 1) := by
  obtain ⟨m, rfl⟩ : ∃ m, n = m + 1 := ⟨n - 1, by omega⟩
  have hfb : fromBefore from0 (m + 1) = none := rfl
  refine ⟨by simp [tickStart, hfb, optTake], fun e he => ?_, fun k hk hlt => ?_⟩
  · simp [tickStart, hfb, optTake, he, resolveFrom]
  · simp [tickStart, hfb, optTake, hk, resolveFrom, Nat.mod_eq_of_lt hlt]

/-- Witness for C3: the caller supplied `100`, but tick 1 (the tick after
the first pass) resolves from the store cursor 41 to start 42. -/
theorem claim3_one_time_override_witness :
    tickStart (fun _ => ⟨Except.ok 41, Except.ok 50, fun st _ => (st, Except.ok ())⟩)
        (some 100) 1 = 42 := by
  have h := claim3_one_time_override
    (fun _ => ⟨Except.ok 41, Except.ok 50, fun st _ => (st, Except.ok ())⟩)
    (some 100) 1 (by norm_num)
  simpa using h.2.2 41 rfl (by norm_num [U64MOD])

/-- C4: the scheduler loop never stops on a pass failure.  The loop body
matches both `Ok` (logged at info) and `Err` (logged at warn) and does
nothing else, so in the embedding every tick index has an outcome: tick
`n + 1` always runs exactly one `bump`, against the store left by tick `n`
(whatever tick `n`'s result was, success or error) and with the `from`
override already consumed (`none`). -/
theorem claim4_loop_always_ticks (envs : Nat → PassEnv) (st0 : Store) (from0 : Option Nat)
    (n : Nat) :
    tickResult envs st0 from0 (n + 1) =
      bump (envs (n + 1)) (tickResult envs st0 from0 n).store none ∧
    fromBefore from0 (n + 1) = none :=
  ⟨rfl, rfl⟩

section StoreLemmas

theorem upsert_preserves (st : Store) (slot : NewSlot) (k : Nat) (v : NewSlot)
    (h : lookupHeight st k = some v) : lookupHeight (upsert st slot).1 k = some v := by
  unfold upsert
  by_cases hp : (lookupHeight st slot.height).isSome
  · simpa [hp] using h
  · simp only [hp, if_false, Bool.false_eq_true]
    simp only [lookupHeight] at h ⊢
    simp [List.find?_append, h]

theorem upsert_other (st : Store) (slot : NewSlot) (k : Nat) (hk : k ≠ slot.height) :
    lookupHeight (upsert st slot).1 k = lookupHeight st k := by
  unfold upsert
  by_cases hp : (lookupHeight st slot.height).isSome
  · simp [hp]
  · simp only [hp, if_false, Bool.false_eq_true]
    simp only [lookupHeight, List.find?_append]
    have hne : (slot.height == k) = false := beq_eq_false_iff_ne.mpr fun h => hk h.symm
    have : List.find? (fun s => s.height == k) [slot] = none := by
      simp [List.find?, hne]
    simp [this]

theorem createEntry_preserves (fetch : Nat → Except Error NewSlot) (wOk : Nat → Bool)
    (st : Store) (h k : Nat) (v : NewSlot) (hv : lookupHeight st k = some v) :
    lookupHeight (createEntry fetch wOk st h).1 k = some v := by
  unfold createEntry
  cases hf : fetch h with
  | error e => exact hv
  | ok slot =>
    by_cases hw : wOk h
    · simp only [hw, if_true]
      exact upsert_preserves st slot k v hv
    · simp [hw, hv]

theorem createEntry_untouched (fetch : Nat → Except Error NewSlot) (wOk : Nat → Bool)
    (st : Store) (h k : Nat)
    (hwf : ∀ slot, fetch h = .ok slot → slot.height = h) (hk : k ≠ h) :
    lookupHeight (createEntry fetch wOk st h).1 k = lookupHeight st k := by
  unfold createEntry
  cases hf : fetch h with
  | error e => rfl
  | ok slot =>
    have hsl := hwf slot hf
    by_cases hw : wOk h
    · simp only [hw, if_true]
      exact upsert_other st slot k (by rw [hsl]; exact hk)
    · simp [hw]

theorem runCreates_preserves (fetch : Nat → Except Error NewSlot) (wOk : Nat → Bool) :
    ∀ (hs : List Nat) (st : Store) (k : Nat) (v : NewSlot),
      lookupHeight st k = some v →
      lookupHeight (runCreates (createEntry fetch wOk) st hs).1 k = some v := by
  intro hs
  induction hs with
  | nil => intro st k v hv; exact hv
  | cons h rest ih =>
    intro st k v hv
    have hstep := createEntry_preserves fetch wOk st h k v hv
    rcases hc : createEntry fetch wOk st h with ⟨st', r⟩
    rw [hc] at hstep
    cases r with
    | ok u =>
      simp only [runCreates, hc]
      exact ih st' k v hstep
    | error e =>
      simp only [runCreates, hc]
      exact hstep

theorem runCreates_untouched (fetch : Nat → Except Error NewSlot) (wOk : Nat → Bool) :
    ∀ (hs : List Nat) (st : Store) (k : Nat),
      (∀ x ∈ hs, ∀ slot, fetch x = .ok slot → slot.height = x) →
      k ∉ hs →
      lookupHeight (runCreates (createEntry fetch wOk) st hs).1 k = lookupHeight st k := by
  intro hs
  induction hs with
  | nil => intro st k _ _; rfl
  | cons h rest ih =>
    intro st k hwf hk
    have hkh : k ≠ h := fun hkh => hk (hkh ▸ List.mem_cons_self h rest)
    have hkr : k ∉ rest := fun hkr => hk (List.mem_cons_of_mem h hkr)
    have hstep := createEntry_untouched fetch wOk st h k
      (hwf h (List.mem_cons_self h rest)) hkh
    rcases hc : createEntry fetch wOk st h with ⟨st', r⟩
    rw [hc] at hstep
    cases r with
    | ok u =>
      simp only [runCreates, hc]
      rw [ih st' k (fun x hx => hwf x (List.mem_cons_of_mem h hx)) hkr, hstep]
    | error e =>
      simp only [runCreates, hc]
      exact hstep

theorem fetchGood_create_ok (fetch : Nat → Except Error NewSlot) (wOk : Nat → Bool)
    (x : Nat) (hg : fetchGood fetch wOk x = true) :
    ∀ st, (createEntry fetch wOk st x).2 = .ok () := by
  intro st
  unfold fetchGood at hg
  unfold createEntry
  cases hf : fetch x with
  | error e => rw [hf] at hg; exact absurd hg (by simp)
  | ok slot =>
    rw [hf] at hg
    have hw : wOk x = true := by
      have := Bool.and_elim_right hg
      exact this
    simp [hw]

theorem fetchGood_height (fetch : Nat → Except Error NewSlot) (wOk : Nat → Bool)
    (x : Nat) (hg : fetchGood fetch wOk x = true) :
    ∀ slot, fetch x = .ok slot → slot.height = x := by
  intro slot hf
  unfold fetchGood at hg
  rw [hf] at hg
  exact eq_of_beq (Bool.and_elim_left hg)

theorem runCreates_append_all_ok (c : CreateFn) :
    ∀ (xs ys : List Nat), (∀ x ∈ xs, ∀ st, (c st x).2 = .ok ()) → ∀ st : Store,
      runCreates c st (xs ++ ys) =
        ((runCreates c (runCreates c st xs).1 ys).1,
         xs ++ (runCreates c (runCreates c st xs).1 ys).2.1,
         (runCreates c (runCreates c st xs).1 ys).2.2) := by
  intro xs
  induction xs with
  | nil => intro ys _ st; simp [runCreates]
  | cons h rest ih =>
    intro ys hok st
    have hh := hok h (List.mem_cons_self h rest) st
    rcases hc : c st h with ⟨st', r⟩
    rw [hc] at hh
    cases r with
    | error e => exact absurd hh (by simp)
    | ok u =>
      simp only [List.cons_append, runCreates, hc, List.append_eq]
      rw [ih ys (fun x hx st'' => hok x (List.mem_cons_of_mem h hx) st'') st']

end StoreLemmas

/-- C5 (against the spec-modelled `create_new_entry`): when the fetch at a
height `h` inside the computed range `[s, H]` fails — e.g. with
`PendingBlock(h)` or `NothingAtHeight(h)` — while every height before `h`
succeeds, the pass aborts at `h`: it returns that error, the call trace
stops exactly at `h`, nothing is written at `h` or any greater height, and
every entry already persisted keeps its value. -/
theorem claim5_abort_on_fetch_failure
    (fetch : Nat → Except Error NewSlot) (wOk : Nat → Bool) (env : PassEnv)
    (st : Store) (fr : Option Nat) (s H h : Nat) (e : Error)
    (hcreate : env.create = createEntry fetch wOk)
    (hs : resolveFrom fr env.dbHeight = s)
    (hn : env.nodeHeight = .ok H)
    (hne : s ≠ H) (hsh : s ≤ h) (hhH : h ≤ H) (hH : H + 1 < U64MOD)
    (hgood : ∀ k ∈ List.range' s (h - s), fetchGood fetch wOk k = true)
    (hfail : fetch h = .error e) :
    (bump env st fr).result = .error e ∧
    (bump env st fr).calls = List.range' s (h - s + 1) ∧
    (∀ k, h ≤ k → lookupHeight (bump env st fr).store k = lookupHeight st k) ∧
    (∀ k v, lookupHeight st k = some v → lookupHeight (bump env st fr).store k = some v) := by
  have h1 : (H + 1) % U64MOD = H + 1 := Nat.mod_eq_of_lt hH
  have e1 : s + (h - s) = h := by omega
  have e3 : H + 1 - h = (H - h) + 1 := by omega
  have hsplit : passHeights s H =
      List.range' s (h - s) ++ (h :: List.range' (h + 1) (H - h)) := by
    unfold passHeights
    rw [h1, show H + 1 - s = (H + 1 - h) + (h - s) by omega,
      ← List.range'_append_1 s (h - s) (H + 1 - h), e1, e3, List.range'_succ]
  have hpre : ∀ x ∈ List.range' s (h - s), ∀ st', (createEntry fetch wOk st' x).2 = .ok () :=
    fun x hx st' => fetchGood_create_ok fetch wOk x (hgood x hx) st'
  have hb := bump_not_caught env st fr s H hs hn hne
  rw [hcreate, hsplit,
    runCreates_append_all_ok (createEntry fetch wOk) _ _ hpre st] at hb
  have hath : createEntry fetch wOk
      (runCreates (createEntry fetch wOk) st (List.range' s (h - s))).1 h =
      ((runCreates (createEntry fetch wOk) st (List.range' s (h - s))).1, .error e) := by
    simp [createEntry, hfail]
  rw [show runCreates (createEntry fetch wOk)
        (runCreates (createEntry fetch wOk) st (List.range' s (h - s))).1
        (h :: List.range' (h + 1) (H - h)) =
      ((runCreates (createEntry fetch wOk) st (List.range' s (h - s))).1, [h], .error e) from by
    simp only [runCreates, hath]] at hb
  have hbump : bump env st fr =
      ⟨(runCreates (createEntry fetch wOk) st (List.range' s (h - s))).1,
       List.range' s (h - s) ++ [h], .error e⟩ := hb
  rw [hbump]
  refine ⟨rfl, ?_, ?_, ?_⟩
  · show List.range' s (h - s) ++ [h] = List.range' s (h - s + 1)
    rw [List.range'_1_concat, e1]
  · intro k hk
    exact runCreates_untouched fetch wOk (List.range' s (h - s)) st k
      (fun x hx => fetchGood_height fetch wOk x (hgood x hx))
      (by rw [List.mem_range'_1]; omega)
  · intro k v hv
    exact runCreates_preserves fetch wOk (List.range' s (h - s)) st k v hv

/-- Witness for C5: start 0, head 3, pending block at height 2.  The pass
fails with `PendingBlock(2)`, calls heights `[0, 1, 2]` only, writes
nothing at heights 2 or 3, and the pre-existing entry at height 1 is
untouched. -/
theorem claim5_abort_on_fetch_failure_witness :
    (bump pendingEnv genesisStore none).result = Except.error (Error.pendingBlock 2) ∧
    (bump pendingEnv genesisStore none).calls = [0, 1, 2] ∧
    lookupHeight (bump pendingEnv genesisStore none).store 2 = none ∧
    lookupHeight (bump pendingEnv genesisStore none).store 3 = none ∧
    lookupHeight (bump pendingEnv genesisStore none).store 1 = some ⟨"genesis", 1, some 5⟩ := by
  have h := claim5_abort_on_fetch_failure pendingFetch (fun _ => true) pendingEnv
    genesisStore none 0 3 2 (Error.pendingBlock 2) rfl rfl rfl (by norm_num) (by norm_num)
    (by norm_num) (by norm_num [U64MOD]) (by decide) rfl
  refine ⟨h.1, ?_, ?_, ?_, h.2.2.2 1 ⟨"genesis", 1, some 5⟩ rfl⟩
  · exact h.2.1
  · exact (h.2.2.1 2 (by norm_num)).trans rfl
  · exact (h.2.2.1 3 (by norm_num)).trans rfl

section UniqueLemmas

theorem bump_caught (env : PassEnv) (st : Store) (fr : Option Nat) (H : Nat)
    (hs : resolveFrom fr env.dbHeight = H) (hn : env.nodeHeight = .ok H) :
    bump env st fr = ⟨st, [], .ok H⟩ := by
  simp [bump, hn, hs]

theorem bump_node_failed (env : PassEnv) (st : Store) (fr : Option Nat) (e : Error)
    (hn : env.nodeHeight = .error e) :
    bump env st fr = ⟨st, [], .error e⟩ := by
  simp [bump, hn]

theorem upsert_present (st : Store) (slot : NewSlot)
    (hp : (lookupHeight st slot.height).isSome) : upsert st slot = (st, 0) := by
  simp [upsert, hp]

theorem upsert_unique (st : Store) (slot : NewSlot) (hu : uniqueHeights st) :
    uniqueHeights (upsert st slot).1 := by
  unfold upsert
  by_cases hp : (lookupHeight st slot.height).isSome
  · simpa [hp]
  · simp only [hp, if_false, Bool.false_eq_true]
    have hnone : lookupHeight st slot.height = none := Option.not_isSome_iff_eq_none.mp hp
    have hall : ∀ x ∈ st, ¬ x.height = slot.height := by simpa [lookupHeight] using hnone
    rw [uniqueHeights, List.pairwise_append]
    refine ⟨hu, List.pairwise_singleton _ _, fun a ha b hb => ?_⟩
    have hb' := List.mem_singleton.mp hb
    subst hb'
    exact hall a ha

theorem createEntry_unique (fetch : Nat → Except Error NewSlot) (wOk : Nat → Bool)
    (st : Store) (h : Nat) (hu : uniqueHeights st) :
    uniqueHeights (createEntry fetch wOk st h).1 := by
  unfold createEntry
  cases hf : fetch h with
  | error e => exact hu
  | ok slot =>
    by_cases hw : wOk h
    · simp only [hw, if_true]
      exact upsert_unique st slot hu
    · simpa [hw]

theorem runCreates_unique (fetch : Nat → Except Error NewSlot) (wOk : Nat → Bool) :
    ∀ (hs : List Nat) (st : Store), uniqueHeights st →
      uniqueHeights (runCreates (createEntry fetch wOk) st hs).1 := by
  intro hs
  induction hs with
  | nil => intro st hu; exact hu
  | cons h rest ih =>
    intro st hu
    have hstep := createEntry_unique fetch wOk st h hu
    rcases hc : createEntry fetch wOk st h with ⟨st', r⟩
    rw [hc] at hstep
    cases r with
    | ok u =>
      simp only [runCreates, hc]
      exact ih st' hstep
    | error e =>
      simp only [runCreates, hc]
      exact hstep

theorem bump_store_preserves (fetch : Nat → Except Error NewSlot) (wOk : Nat → Bool)
    (env : PassEnv) (st : Store) (fr : Option Nat)
    (hcreate : env.create = createEntry fetch wOk) (k : Nat) (v : NewSlot)
    (hv : lookupHeight st k = some v) :
    lookupHeight (bump env st fr).store k = some v := by
  cases hn : env.nodeHeight with
  | error e => rw [bump_node_failed env st fr e hn]; exact hv
  | ok H =>
    by_cases hif : resolveFrom fr env.dbHeight = H
    · rw [bump_caught env st fr H hif hn]; exact hv
    · rw [bump_not_caught env st fr _ H rfl hn hif, hcreate]
      rcases hr : runCreates (createEntry fetch wOk) st
          (passHeights (resolveFrom fr env.dbHeight) H) with ⟨st', calls, r⟩
      have hst' : lookupHeight st' k = some v := by
        have hp := runCreates_preserves fetch wOk
          (passHeights (resolveFrom fr env.dbHeight) H) st k v hv
        rw [hr] at hp
        exact hp
      cases r with
      | ok u => exact hst'
      | error e => exact hst'

theorem bump_store_unique (fetch : Nat → Except Error NewSlot) (wOk : Nat → Bool)
    (env : PassEnv) (st : Store) (fr : Option Nat)
    (hcreate : env.create = createEntry fetch wOk) (hu : uniqueHeights st) :
    uniqueHeights (bump env st fr).store := by
  cases hn : env.nodeHeight with
  | error e => rw [bump_node_failed env st fr e hn]; exact hu
  | ok H =>
    by_cases hif : resolveFrom fr env.dbHeight = H
    · rw [bump_caught env st fr H hif hn]; exact hu
    · rw [bump_not_caught env st fr _ H rfl hn hif, hcreate]
      rcases hr : runCreates (createEntry fetch wOk) st
          (passHeights (resolveFrom fr env.dbHeight) H) with ⟨st', calls, r⟩
      have hst' : uniqueHeights st' := by
        have hp := runCreates_unique fetch wOk
          (passHeights (resolveFrom fr env.dbHeight) H) st hu
        rw [hr] at hp
        exact hp
      cases r with
      | ok u => exact hst'
      | error e => exact hst'

end UniqueLemmas

/-- C6: the insert is idempotent and never overwrites.  A first
`upsert` of an absent height inserts the row (1 affected row); a second
`upsert` at the same height is a no-op returning 0 affected rows and the
first row stays; the at-most-one-row-per-height invariant is preserved;
and across a whole sync pass (with the spec-modelled `create_new_entry`),
an entry the store already holds at any height — in particular any height
at or below the cursor — is never overwritten. -/
theorem claim6_idempotent_insert (st : Store) (slot slot' : NewSlot)
    (fetch : Nat → Except Error NewSlot) (wOk : Nat → Bool)
    (env : PassEnv) (fr : Option Nat)
    (habs : lookupHeight st slot.height = none)
    (hh : slot'.height = slot.height)
    (hcreate : env.create = createEntry fetch wOk) :
    (upsert st slot).2 = 1 ∧
    lookupHeight (upsert st slot).1 slot.height = some slot ∧
    upsert (upsert st slot).1 slot' = ((upsert st slot).1, 0) ∧
    (uniqueHeights st → uniqueHeights (upsert st slot).1) ∧
    (∀ k v, lookupHeight st k = some v → lookupHeight (bump env st fr).store k = some v) ∧
    (uniqueHeights st → uniqueHeights (bump env st fr).store) := by
  have hup : upsert st slot = (st ++ [slot], 1) := by
    simp [upsert, habs]
  have hlook : lookupHeight (upsert st slot).1 slot.height = some slot := by
    rw [hup]
    simp only [lookupHeight] at habs ⊢
    simp [List.find?_append, habs, List.find?]
  refine ⟨by rw [hup], hlook, ?_, fun hu => upsert_unique st slot hu,
    fun k v hv => bump_store_preserves fetch wOk env st fr hcreate k v hv,
    fun hu => bump_store_unique fetch wOk env st fr hcreate hu⟩
  have hsome : (lookupHeight (upsert st slot).1 slot'.height).isSome := by
    rw [hh, hlook]
    rfl
  exact upsert_present _ _ hsome

/-- Witness for C6: inserting height 7 into the empty store affects one
row; re-inserting a different row at height 7 affects zero rows and leaves
the first row in place; a full pass over a store already holding height 1
keeps that entry. -/
theorem claim6_idempotent_insert_witness :
    (upsert [] ⟨"mainnet", 7, none⟩).2 = 1 ∧
    lookupHeight (upsert [] ⟨"mainnet", 7, none⟩).1 7 = some ⟨"mainnet", 7, none⟩ ∧
    upsert (upsert [] ⟨"mainnet", 7, none⟩).1 ⟨"other", 7, some 3⟩ =
      ((upsert [] ⟨"mainnet", 7, none⟩).1, 0) ∧
    lookupHeight (bump pendingEnv genesisStore none).store 1 = some ⟨"genesis", 1, some 5⟩ := by
  have h := claim6_idempotent_insert [] ⟨"mainnet", 7, none⟩ ⟨"other", 7, some 3⟩
    pendingFetch (fun _ => true) pendingEnv none rfl rfl rfl
  have h2 := claim6_idempotent_insert genesisStore ⟨"mainnet", 7, none⟩ ⟨"other", 7, some 3⟩
    pendingFetch (fun _ => true) pendingEnv none rfl rfl rfl
  exact ⟨h.1, h.2.1, h.2.2.1, h2.2.2.2.2.1 1 ⟨"genesis", 1, some 5⟩ rfl⟩

/-- Counterexample to C8 as stated: `get_db_height` fails with a storage
error, yet the pass does not fail.  `map_or(0, |slot| slot + 1)` swallows
the read error and resolves the start height to `0` — the empty-store
value — the start then equals the head `0`, and the pass succeeds with
`Ok(0)`. -/
theorem claim8_counterexample :
    dbFailEnv.dbHeight = Except.error Error.storage ∧
    resolveFrom none dbFailEnv.dbHeight = 0 ∧
    bump dbFailEnv [] none = ⟨[], [], Except.ok 0⟩ :=
  ⟨rfl, rfl, rfl⟩

/-- C8 (amended): failures of the node-head query and of
`create_new_entry` at ANY height of the computed range — a failing fetch
or a failing storage write alike, mid-range included — fail the pass,
which the scheduler only logs before the next tick; but a failing
`get_db_height` read during start-height resolution is silently treated
as an empty store — the start height becomes `0` and the pass proceeds.
The per-height conjunct is generic in `env.create`: heights before `h`
succeed, `create_new_entry` fails at `h` against the store those
successes produced, and the pass returns that error after calling exactly
the heights `[s, h]`, its store being whatever the failing call left. -/
theorem claim8_error_propagation (env : PassEnv) (st : Store) (fr : Option Nat) (e : Error) :
    (env.dbHeight = .error e → resolveFrom none env.dbHeight = 0) ∧
    (env.nodeHeight = .error e → bump env st fr = ⟨st, [], .error e⟩) ∧
    (∀ s H h, resolveFrom fr env.dbHeight = s → env.nodeHeight = .ok H →
      s ≤ h → h ≤ H → s ≠ H → H + 1 < U64MOD →
      (∀ x ∈ List.range' s (h - s), ∀ st', (env.create st' x).2 = .ok ()) →
      (env.create (runCreates env.create st (List.range' s (h - s))).1 h).2 = .error e →
      (bump env st fr).result = .error e ∧
      (bump env st fr).calls = List.range' s (h - s + 1) ∧
      (bump env st fr).store =
        (env.create (runCreates env.create st (List.range' s (h - s))).1 h).1) := by
  refine ⟨fun he => by simp [resolveFrom, he],
    fun hn => bump_node_failed env st fr e hn,
    fun s H h hs hn hsh hhH hne hH hpre hfail => ?_⟩
  have e1 : s + (h - s) = h := by omega
  have hsplit : passHeights s H =
      List.range' s (h - s) ++ (h :: List.range' (h + 1) (H - h)) := by
    unfold passHeights
    rw [Nat.mod_eq_of_lt hH, show H + 1 - s = (H + 1 - h) + (h - s) by omega,
      ← List.range'_append_1 s (h - s) (H + 1 - h), e1,
      show H + 1 - h = (H - h) + 1 by omega, List.range'_succ]
  have hb := bump_not_caught env st fr s H hs hn hne
  rw [hsplit, runCreates_append_all_ok env.create _ _ hpre st] at hb
  rcases hch : env.create (runCreates env.create st (List.range' s (h - s))).1 h
    with ⟨st'', r⟩
  have hr : r = .error e := by rw [hch] at hfail; exact hfail
  subst hr
  rw [show runCreates env.create (runCreates env.create st (List.range' s (h - s))).1
        (h :: List.range' (h + 1) (H - h)) = (st'', [h], .error e) from by
    simp only [runCreates, hch]] at hb
  have hbump : bump env st fr =
      ⟨st'', List.range' s (h - s) ++ [h], .error e⟩ := hb
  rw [hbump]
  refine ⟨rfl, ?_, rfl⟩
  show List.range' s (h - s) ++ [h] = List.range' s (h - s + 1)
  rw [List.range'_1_concat, e1]

/-- Witness for C8 (amended): a transport error on the head query fails
the pass untouched; a storage-write failure at height 2, in the middle of
the range `[0, 3]` and after heights 0 and 1 were persisted, fails the
pass after exactly the calls `[0, 1, 2]`; and a failed `get_db_height`
resolves the start to 0. -/
theorem claim8_error_propagation_witness :
    resolveFrom none dbFailEnv.dbHeight = 0 ∧
    bump ⟨Except.ok 41, Except.error Error.transport, fun st _ => (st, Except.ok ())⟩ [] none =
      ⟨[], [], Except.error Error.transport⟩ ∧
    (bump writeFailEnv [] none).result = Except.error Error.storage ∧
    (bump writeFailEnv [] none).calls = [0, 1, 2] := by
  have h1 := claim8_error_propagation dbFailEnv [] none Error.storage
  have h2 := claim8_error_propagation
    ⟨Except.ok 41, Except.error Error.transport, fun st _ => (st, Except.ok ())⟩
    [] none Error.transport
  have h3 := claim8_error_propagation writeFailEnv [] none Error.storage
  have hmid := h3.2.2 0 3 2 rfl rfl (by norm_num) (by norm_num) (by norm_num)
    (by norm_num [U64MOD])
    (by
      intro x hx st'
      have hx2 : x ≠ 2 := by
        rw [List.mem_range'_1] at hx
        omega
      simp [writeFailEnv, createEntry, beq_eq_false_iff_ne.mpr hx2])
    rfl
  exact ⟨h1.1 rfl, h2.2.1 rfl, hmid.1, hmid.2.1⟩

end EthWatcher
